import Mathlib

/-!
Verification of the header-comment synchronization core of the
relpath-snippet-helper editor extension.

The source (src/src/extension.ts) contains two variants of the extension,
separated by a document separator; both define `getCommentTokens`,
`headerText`, a header-search pattern builder (`headerRegex`, with two
different literal-escaping functions), `insertionPosition` and
`ensureHeader`.  The second variant additionally defines
`getRelPathOrAbs`.

Modelling choices:
  * strings are `List Char`;
  * documents are their text (a `List Char`) plus an end-of-line setting,
    lines are split on CR LF, LF or CR exactly as the host editor does;
  * the JavaScript regular expression built by `headerRegex` is modelled
    by (a) the literal pattern string the code builds, (b) a tokenizer and
    parser for the fragment of regex syntax such patterns can fall into,
    and (c) a backtracking matcher with the engine's greedy leftmost
    semantics.  `exec` on a pattern anchored with a start anchor and no
    multiline flag can only match at offset 0 of the scanned text, which
    the anchored runner reflects;
  * editor positions are modelled as character offsets; `Position(l, 0)`
    is the offset of the start of line `l`, clamped to the document end
    when `l` equals the line count (host position validation);
  * the host path resolver (asRelativePath / workspace folder lookup) is
    external to the repository; it is passed in as data (the workspace
    folder name, when any, the workspace-relative path and the absolute
    file name), following the interface the specification describes.
-/

namespace RelPath

/-- Character class matched by a backslash-s in a JavaScript regular
expression, which coincides with the set trimmed by `String.prototype.trim`:
WhiteSpace plus LineTerminator. -/
def jsWhitespace (c : Char) : Bool :=
  c = ' ' || c = '\t' || c = '\n' || c = '\r' || c = '\x0b' || c = '\x0c' ||
  c.toNat = 0xA0 || c.toNat = 0x1680 ||
  (0x2000 ≤ c.toNat && c.toNat ≤ 0x200A) ||
  c.toNat = 0x2028 || c.toNat = 0x2029 || c.toNat = 0x202F ||
  c.toNat = 0x205F || c.toNat = 0x3000 || c.toNat = 0xFEFF

/-- JavaScript line terminators: the characters a dot does not match
without the dotAll flag. -/
def lineTerm (c : Char) : Bool :=
  c = '\n' || c = '\r' || c.toNat = 0x2028 || c.toNat = 0x2029

/-- Model of `String.prototype.trim`. -/
def trimChars (l : List Char) : List Char :=
  ((l.dropWhile jsWhitespace).reverse.dropWhile jsWhitespace).reverse

/-- Model of `text.startsWith('#!')`. -/
def startsShebang : List Char → Bool
  | '#' :: '!' :: _ => true
  | _ => false

/-! ## Comment-syntax resolver (`getCommentTokens`) -/

/-- The `CommentTokens` tagged union of the source: a single-line comment
start, or a block comment start/end pair.  The block end delimiter is
named `stop` because `end` is reserved in Lean. -/
inductive CommentTokens where
  | line (start : List Char)
  | block (start : List Char) (stop : List Char)
  deriving DecidableEq, Repr

/-- Start delimiter of a comment style. -/
def CommentTokens.startTok : CommentTokens → List Char
  | .line s => s
  | .block s _ => s

/-- End delimiter of a comment style; empty for a line style. -/
def CommentTokens.stopTok : CommentTokens → List Char
  | .line _ => []
  | .block _ e => e

/-- The `lineMap` table of `getCommentTokens`, identical in both variants. -/
def lineMap : List (String × List Char) :=
  [("javascript", "// ".toList), ("javascriptreact", "// ".toList),
   ("typescript", "// ".toList), ("typescriptreact", "// ".toList),
   ("jsonc", "// ".toList), ("java", "// ".toList), ("c", "// ".toList),
   ("cpp", "// ".toList), ("csharp", "// ".toList),
   ("go", "// ".toList), ("kotlin", "// ".toList), ("swift", "// ".toList),
   ("rust", "// ".toList), ("dart", "// ".toList),
   ("php", "// ".toList), ("scala", "// ".toList), ("fsharp", "// ".toList),
   ("zig", "// ".toList), ("verilog", "// ".toList),
   ("systemverilog", "// ".toList),
   ("python", "# ".toList), ("ruby", "# ".toList), ("perl", "# ".toList),
   ("powershell", "# ".toList), ("shellscript", "# ".toList),
   ("tcl", "# ".toList), ("makefile", "# ".toList), ("r", "# ".toList),
   ("julia", "# ".toList), ("nim", "# ".toList), ("crystal", "# ".toList),
   ("yaml", "# ".toList), ("toml", "# ".toList), ("dotenv", "# ".toList),
   ("dockerfile", "# ".toList), ("properties", "# ".toList),
   ("ini", "; ".toList),
   ("haskell", "-- ".toList), ("sql", "-- ".toList), ("vhdl", "-- ".toList),
   ("lua", "-- ".toList),
   ("clojure", "; ".toList), ("clojurescript", "; ".toList),
   ("lisp", "; ".toList), ("scheme", "; ".toList),
   ("erlang", "% ".toList), ("prolog", "% ".toList),
   ("matlab", "% ".toList), ("latex", "% ".toList), ("bibtex", "% ".toList)]

/-- The `blockMap` table of `getCommentTokens`, identical in both variants.
Brace characters are written with hexadecimal escapes. -/
def blockMap : List (String × (List Char × List Char)) :=
  [("html", ("<!-- ".toList, " -->".toList)),
   ("xml", ("<!-- ".toList, " -->".toList)),
   ("svg", ("<!-- ".toList, " -->".toList)),
   ("css", ("/* ".toList, " */".toList)),
   ("markdown", ("<!-- ".toList, " -->".toList)),
   ("vue", ("<!-- ".toList, " -->".toList)),
   ("svelte", ("<!-- ".toList, " -->".toList)),
   ("ocaml", ("(* ".toList, " *)".toList)),
   ("pascal", ("\x7b ".toList, " \x7d".toList)),
   ("handlebars", ("\x7b\x7b!-- ".toList, " --\x7d\x7d".toList)),
   ("twig", ("\x7b# ".toList, " #\x7d".toList))]

/-- `getCommentTokens`: look the language id up in the line map first, then
the block map, and fall back to the default line style. -/
def getCommentTokens (languageId : String) : CommentTokens :=
  match lineMap.lookup languageId with
  | some p => .line p
  | none =>
    match blockMap.lookup languageId with
    | some pq => .block pq.1 pq.2
    | none => .line "// ".toList

/-! ## Header text rendering (`headerText`) -/

/-- Document end-of-line setting (`vscode.EndOfLine`). -/
inductive EOL where
  | lf
  | crlf
  deriving DecidableEq, Repr

/-- `headerText`: label, colon-space, path, wrapped in the comment
delimiters and terminated by the document's own line ending. -/
def headerText (tokens : CommentTokens) (label rel : List Char) (eol : EOL) :
    List Char :=
  let nl := match eol with
    | .crlf => ['\r', '\n']
    | .lf => ['\n']
  let txt := label ++ [':', ' '] ++ rel
  match tokens with
  | .line st => st ++ txt ++ nl
  | .block st en => st ++ txt ++ en ++ nl

/-! ## Pattern construction (`headerRegex`, the two escape functions) -/

/-- Characters escaped by the first variant's inline `esc` helper:
the class in `s.replace` there lists dot, star, plus, question mark,
caret, dollar, braces, parens, bar, brackets and backslash. -/
def isMeta1 (c : Char) : Bool :=
  c ∈ ['.', '*', '+', '?', '^', '$', '\x7b', '\x7d', '(', ')', '|',
       '[', ']', '\\']

/-- Characters escaped by the second variant's `reEscape`: dash, slash,
backslash, caret, dollar, star, plus, question mark, dot, parens, bar,
brackets and braces. -/
def isMeta2 (c : Char) : Bool :=
  c ∈ ['-', '/', '\\', '^', '$', '*', '+', '?', '.', '(', ')', '|',
       '[', ']', '\x7b', '\x7d']

/-- Escaping a string against a class of metacharacters: prepend a
backslash to every character of the class (the `s.replace` with a
backslash-dollar-ampersand replacement in the source). -/
def escWith (meta : Char → Bool) (s : List Char) : List Char :=
  (s.map (fun c => if meta c then ['\\', c] else [c])).flatten

/-- Escape helper of the first variant. -/
def escape1 : List Char → List Char := escWith isMeta1

/-- `reEscape` of the second variant. -/
def reEscape : List Char → List Char := escWith isMeta2

/-- The pattern template shared by both variants: caret, backslash-s star,
escaped start delimiter, escaped label, colon, backslash-s star, a
parenthesised dot-plus capture group, the escaped end delimiter (empty for
a line style), then optional CR and optional LF. -/
def headerPatternWith (esc : List Char → List Char)
    (tokens : CommentTokens) (label : List Char) : List Char :=
  ['^', '\\', 's', '*'] ++ esc tokens.startTok ++ esc label ++
  [':', '\\', 's', '*', '(', '.', '+', ')'] ++ esc tokens.stopTok ++
  ['\\', 'r', '?', '\\', 'n', '?']

/-- Pattern string built by the first variant's `headerRegex`. -/
def headerRegex (tokens : CommentTokens) (label : List Char) : List Char :=
  headerPatternWith escape1 tokens label

/-- Pattern string built by the second variant's `headerRegex`. -/
def headerRegexV2 (tokens : CommentTokens) (label : List Char) : List Char :=
  headerPatternWith reEscape tokens label

/-! ## A fragment of JavaScript regular expression syntax

The patterns `headerRegex` builds fall into a small fragment of regex
syntax: literal characters (possibly backslash-escaped), the backslash-s
class, the dot, greedy star / plus / question-mark quantifiers over a
single-character atom, and one non-nested capture group.  The tokenizer
and parser below accept exactly that fragment and reject anything else,
so an unescaped metacharacter that changes the meaning of a pattern
either produces a different syntax tree or fails to parse. -/

/-- Tokens of the regex fragment. -/
inductive Tok where
  | lit (c : Char)
  | wsC
  | dot
  | star
  | plus
  | opt
  | lparen
  | rparen
  deriving DecidableEq, Repr

/-- Single-character atoms of the regex fragment. -/
inductive CAtom where
  | lit (c : Char)
  | anyND
  | ws
  deriving DecidableEq, Repr

/-- Does a single-character atom match a character. -/
def catomMatches : CAtom → Char → Bool
  | .lit c, x => x = c
  | .anyND, x => !(lineTerm x)
  | .ws, x => jsWhitespace x

/-- Syntax trees of the regex fragment.  Quantifiers are greedy and apply
to single-character atoms only, as in the generated patterns. -/
inductive RE where
  | eps
  | atom (a : CAtom)
  | star (a : CAtom)
  | plus (a : CAtom)
  | opt (a : CAtom)
  | seq (r1 r2 : RE)
  | group (r : RE)
  deriving DecidableEq, Repr

/-- Meaning of a backslash escape: the whitespace class, carriage return,
line feed, an escaped non-alphanumeric character standing for itself, and
nothing else (other classes are outside the fragment). -/
def escTok (c : Char) : Option Tok :=
  if c = 's' then some .wsC
  else if c = 'r' then some (.lit '\r')
  else if c = 'n' then some (.lit '\n')
  else if c.isAlpha || c.isDigit then none
  else some (.lit c)

/-- Meaning of an unescaped pattern character.  Unsupported
metacharacters (caret, dollar, bar, brackets, braces) are rejected. -/
def charTok (c : Char) : Option Tok :=
  if c = '.' then some .dot
  else if c = '*' then some .star
  else if c = '+' then some .plus
  else if c = '?' then some .opt
  else if c = '(' then some .lparen
  else if c = ')' then some .rparen
  else if c = '^' || c = '$' || c = '|' || c = '[' || c = ']' ||
          c = '\x7b' || c = '\x7d' then none
  else some (.lit c)

/-- Tokenize a pattern string (the part after the leading caret). -/
def tokenize : List Char → Option (List Tok)
  | [] => some []
  | c :: rest =>
    if c = '\\' then
      match rest with
      | [] => none
      | c2 :: rest2 =>
        match escTok c2 with
        | some t => (tokenize rest2).map (t :: ·)
        | none => none
    else
      match charTok c with
      | some t => (tokenize rest).map (t :: ·)
      | none => none

/-- The atom a token denotes, when it denotes one. -/
def atomOfTok : Tok → Option CAtom
  | .lit c => some (.lit c)
  | .wsC => some .ws
  | .dot => some .anyND
  | _ => none

/-- Is a token a postfix quantifier. -/
def isQuant : Tok → Bool
  | .star => true
  | .plus => true
  | .opt => true
  | _ => false

/-- Apply a quantifier token to an atom. -/
def applyQuant (a : CAtom) : Tok → RE
  | .star => .star a
  | .plus => .plus a
  | .opt => .opt a
  | _ => .atom a

/-- Does a token list begin with a quantifier. -/
def headQuant : List Tok → Bool
  | t :: _ => isQuant t
  | [] => false

/-- Assemble a reversed list of parsed items into a right-nested
sequence. -/
def build (acc : List RE) : RE :=
  acc.foldl (fun r x => .seq x r) .eps

/-- Single left-to-right pass over the token list.  `ing` says whether we
are inside the (single, non-nested) group; `acc` accumulates the parsed
items of the current level in reverse; `accOut` saves the outer level's
items while inside the group.  A quantifier with nothing to repeat, a
nested or unterminated group, a stray closing parenthesis and a
quantified group are all outside the fragment. -/
def parseAux : List Tok → Bool → List RE → List RE → Option RE
  | [], false, acc, _ => some (build acc)
  | [], true, _, _ => none
  | .rparen :: rest, true, accIn, accOut =>
    if headQuant rest then none
    else parseAux rest false (.group (build accIn) :: accOut) []
  | .rparen :: _, false, _, _ => none
  | .lparen :: rest, false, accOut, _ => parseAux rest true [] accOut
  | .lparen :: _, true, _, _ => none
  | t :: rest, ing, acc, accOut =>
    match atomOfTok t with
    | none => none
    | some a =>
      match rest with
      | q :: rest2 =>
        if isQuant q then parseAux rest2 ing (applyQuant a q :: acc) accOut
        else parseAux (q :: rest2) ing (.atom a :: acc) accOut
      | [] => if ing then none else some (build (.atom a :: acc))

/-- Parse a full pattern: the generated patterns are anchored with a
leading caret; anything not of that shape is outside the fragment. -/
def parsePattern : List Char → Option RE
  | '^' :: rest => (tokenize rest).bind (fun ts => parseAux ts false [] [])
  | _ => none

/-! ## Backtracking matcher with greedy leftmost semantics -/

/-- Rests of the input after a greedy star over a single-character atom,
in the engine's backtracking priority order: longest consumption first,
down to consuming nothing. -/
def starRests (a : CAtom) : List Char → List (List Char)
  | [] => [[]]
  | c :: cs =>
    if catomMatches a c then starRests a cs ++ [c :: cs]
    else [c :: cs]

/-- Run a regex on the input, producing the list of

  (rest of input after the match, capture of the group if one matched)

in the engine's backtracking priority order.  Matches always consume a
prefix of the input. -/
def reRun : RE → List Char → List (List Char × Option (List Char))
  | .eps, s => [(s, none)]
  | .atom a, s =>
    match s with
    | [] => []
    | c :: cs => if catomMatches a c then [(cs, none)] else []
  | .star a, s => (starRests a s).map (fun t => (t, none))
  | .plus a, s =>
    match s with
    | [] => []
    | c :: cs =>
      if catomMatches a c then (starRests a cs).map (fun t => (t, none))
      else []
  | .opt a, s =>
    match s with
    | [] => [([], none)]
    | c :: cs =>
      if catomMatches a c then [(cs, none), (c :: cs, none)]
      else [(c :: cs, none)]
  | .seq r1 r2, s =>
    (reRun r1 s).flatMap fun p =>
      (reRun r2 p.1).map fun q => (q.1, p.2.orElse (fun _ => q.2))
  | .group r, s =>
    (reRun r s).map fun p => (p.1, some (s.take (s.length - p.1.length)))

/-- The engine's `exec` on a pattern whose source starts with a caret and
has no multiline flag: only a match starting at offset 0 is possible, and
the first (leftmost greedy) result wins.  Returns the length of the
matched text and the capture of group 1 (the empty string when the group
did not capture, modelling the `match[1] || ''` in the source). -/
def execAnchored (r : RE) (s : List Char) : Option (Nat × List Char) :=
  match reRun r s with
  | [] => none
  | (rest, cap) :: _ => some (s.length - rest.length, cap.getD [])

/-! ## Declarative match relation and soundness of the matcher -/

/-- Declarative semantics of the regex fragment: which strings a syntax
tree matches in full. -/
inductive RMatch : RE → List Char → Prop where
  | eps : RMatch .eps []
  | atom {a : CAtom} {c : Char} :
      catomMatches a c = true → RMatch (.atom a) [c]
  | star_nil {a : CAtom} : RMatch (.star a) []
  | star_cons {a : CAtom} {c : Char} {w : List Char} :
      catomMatches a c = true → RMatch (.star a) w →
      RMatch (.star a) (c :: w)
  | plus_mk {a : CAtom} {c : Char} {w : List Char} :
      catomMatches a c = true → RMatch (.star a) w →
      RMatch (.plus a) (c :: w)
  | opt_nil {a : CAtom} : RMatch (.opt a) []
  | opt_one {a : CAtom} {c : Char} :
      catomMatches a c = true → RMatch (.opt a) [c]
  | seq_mk {r1 r2 : RE} {u v : List Char} :
      RMatch r1 u → RMatch r2 v → RMatch (.seq r1 r2) (u ++ v)
  | group_mk {r : RE} {u : List Char} :
      RMatch r u → RMatch (.group r) u

/-- Every rest produced by the greedy star is reached by consuming a run
of matching characters. -/
theorem starRests_sound {a : CAtom} :
    ∀ {s t : List Char}, t ∈ starRests a s →
      ∃ u, s = u ++ t ∧ RMatch (.star a) u := by
  intro s
  induction s with
  | nil =>
    intro t ht
    simp [starRests] at ht
    exact ⟨[], by simp [ht], RMatch.star_nil⟩
  | cons c cs ih =>
    intro t ht
    by_cases hc : catomMatches a c = true
    · rw [starRests, if_pos hc] at ht
      rcases List.mem_append.mp ht with h1 | h2
      · rcases ih h1 with ⟨u, hu, hm⟩
        exact ⟨c :: u, by simp [hu], RMatch.star_cons hc hm⟩
      · simp at h2
        exact ⟨[], by simp [h2], RMatch.star_nil⟩
    · rw [starRests, if_neg hc] at ht
      simp at ht
      exact ⟨[], by simp [ht], RMatch.star_nil⟩

/-- Soundness of the matcher: every produced rest splits the input into a
matched prefix and that rest. -/
theorem reRun_sound {r : RE} :
    ∀ {s : List Char} {p : List Char × Option (List Char)},
      p ∈ reRun r s → ∃ u, s = u ++ p.1 ∧ RMatch r u := by
  induction r with
  | eps =>
    intro s p hp
    simp [reRun] at hp
    exact ⟨[], by simp [hp], RMatch.eps⟩
  | atom a =>
    intro s p hp
    match s with
    | [] => simp [reRun] at hp
    | c :: cs =>
      by_cases hc : catomMatches a c = true
      · rw [reRun, if_pos hc] at hp
        simp at hp
        exact ⟨[c], by simp [hp], RMatch.atom hc⟩
      · rw [reRun, if_neg hc] at hp
        simp at hp
  | star a =>
    intro s p hp
    simp only [reRun, List.mem_map] at hp
    rcases hp with ⟨t, ht, rfl⟩
    exact starRests_sound ht
  | plus a =>
    intro s p hp
    match s with
    | [] => simp [reRun] at hp
    | c :: cs =>
      by_cases hc : catomMatches a c = true
      · rw [reRun, if_pos hc] at hp
        simp only [List.mem_map] at hp
        rcases hp with ⟨t, ht, rfl⟩
        rcases starRests_sound ht with ⟨u, hu, hm⟩
        exact ⟨c :: u, by simp [hu], RMatch.plus_mk hc hm⟩
      · rw [reRun, if_neg hc] at hp
        simp at hp
  | opt a =>
    intro s p hp
    match s with
    | [] =>
      simp [reRun] at hp
      exact ⟨[], by simp [hp], RMatch.opt_nil⟩
    | c :: cs =>
      by_cases hc : catomMatches a c = true
      · rw [reRun, if_pos hc] at hp
        simp at hp
        rcases hp with h1 | h2
        · exact ⟨[c], by simp [h1], RMatch.opt_one hc⟩
        · exact ⟨[], by simp [h2], RMatch.opt_nil⟩
      · rw [reRun, if_neg hc] at hp
        simp at hp
        exact ⟨[], by simp [hp], RMatch.opt_nil⟩
  | seq r1 r2 ih1 ih2 =>
    intro s p hp
    simp only [reRun, List.mem_flatMap, List.mem_map] at hp
    rcases hp with ⟨q1, hq1, q2, hq2, rfl⟩
    rcases ih1 hq1 with ⟨u1, hu1, hm1⟩
    rcases ih2 hq2 with ⟨u2, hu2, hm2⟩
    exact ⟨u1 ++ u2, by simp [hu1, hu2], RMatch.seq_mk hm1 hm2⟩
  | group r ih =>
    intro s p hp
    simp only [reRun, List.mem_map] at hp
    rcases hp with ⟨q, hq, rfl⟩
    rcases ih hq with ⟨u, hu, hm⟩
    exact ⟨u, by simp [hu], RMatch.group_mk hm⟩

/-! ## Document model

A document is its text plus an end-of-line setting.  The host editor
splits lines on CR LF, LF or lone CR; `lineAt(i).text` is the line
content without its terminator; the text of `Range(0,0,l,0)` is the
concatenation of the first `l` lines with their terminators; positions at
column 0 of line `l` correspond to the character offset of the start of
line `l`, clamped to the document length when `l` is the line count. -/

/-- Line splitting: content/terminator pairs, processed left to right
with an accumulator holding the current line's content in reverse.  The
final line has an empty terminator, so a text ending in a newline has a
trailing empty line, as in the host editor's line model. -/
def docLinesAux : List Char → List Char → List (List Char × List Char)
  | [], acc => [(acc.reverse, [])]
  | c :: rest, acc =>
    if c = '\n' then (acc.reverse, ['\n']) :: docLinesAux rest []
    else if c = '\r' then
      match rest with
      | [] => [(acc.reverse, ['\r']), ([], [])]
      | c2 :: rest2 =>
        if c2 = '\n' then (acc.reverse, ['\r', '\n']) :: docLinesAux rest2 []
        else (acc.reverse, ['\r']) :: docLinesAux (c2 :: rest2) []
    else docLinesAux rest (c :: acc)

/-- The lines of a text. -/
def docLines (s : List Char) : List (List Char × List Char) :=
  docLinesAux s []

/-- `docLinesAux` never returns an empty list. -/
theorem docLinesAux_ne_nil (s : List Char) :
    ∀ acc, docLinesAux s acc ≠ [] := by
  induction s with
  | nil => intro acc; simp [docLinesAux]
  | cons c rest ih =>
    intro acc
    rw [docLinesAux.eq_def]
    by_cases h1 : c = '\n'
    · simp [h1]
    · by_cases h2 : c = '\r'
      · match rest with
        | [] => simp [h1, h2]
        | c2 :: rest2 =>
          by_cases h3 : c2 = '\n'
          · simp [h1, h2, h3]
          · simp [h1, h2, h3]
      · simp only [if_neg h1, if_neg h2]
        exact ih (c :: acc)

/-- A document always has at least one line. -/
theorem docLines_ne_nil (s : List Char) : docLines s ≠ [] :=
  docLinesAux_ne_nil s []

/-- `doc.lineCount`. -/
def lineCount (s : List Char) : Nat := (docLines s).length

/-- `doc.lineAt(i).text`: the content of line `i`, without terminator. -/
def lineTextAt (s : List Char) (i : Nat) : List Char :=
  ((docLines s).getD i ([], [])).1

/-- Character offset of the start of line `k` (column 0 of line `k`);
for `k` = line count this is the document length, matching host position
clamping. -/
def lineStartOffset (s : List Char) (k : Nat) : Nat :=
  (((docLines s).take k).map (fun e => e.1.length + e.2.length)).sum

/-- A document: text plus end-of-line setting. -/
structure TextDoc where
  text : List Char
  eol : EOL
  deriving DecidableEq, Repr

/-- The scanned chunk of `ensureHeader`: the text of
`Range(0, 0, min(10, lineCount), 0)`, that is the first
`min(10, lineCount)` lines with their terminators. -/
def chunkText (d : TextDoc) : List Char :=
  d.text.take (lineStartOffset d.text (min 10 (lineCount d.text)))

/-- Starting line of the blank-skipping loop of `insertionPosition`:
line 1 when the document is non-empty and line 0 starts with a shebang. -/
def shebangStart (s : List Char) : Nat :=
  if 0 < lineCount s ∧ startsShebang (lineTextAt s 0) = true then 1 else 0

/-- Number of consecutive leading lines whose trimmed content is empty. -/
def skipBlankCount : List (List Char × List Char) → Nat
  | [] => 0
  | e :: rest => if trimChars e.1 = [] then skipBlankCount rest + 1 else 0

/-- `insertionPosition`: the line index after the shebang, if any, and
after every consecutive blank line. -/
def insertionLine (s : List Char) : Nat :=
  shebangStart s + skipBlankCount ((docLines s).drop (shebangStart s))

/-- Offset form of `insertionPosition`: column 0 of the insertion line,
clamped to the document end by host position validation. -/
def insertionOffset (s : List Char) : Nat :=
  lineStartOffset s (insertionLine s)

/-! ## The synchronization decision (`ensureHeader`) -/

/-- The edit an `ensureHeader` run registers: nothing, an insertion at a
character offset, or a replacement of an offset range. -/
inductive EditDecision where
  | noOp
  | insertAt (offset : Nat) (text : List Char)
  | replaceRange (startOff stopOff : Nat) (text : List Char)
  deriving DecidableEq, Repr

/-- The label configuration read by `ensureHeader`: the configured value
when set and non-empty, else the default, trimmed, with a second fallback
when blank after trimming. -/
def resolveLabel (cfg : Option (List Char)) : List Char :=
  let base := match cfg with
    | none => "Path".toList
    | some s => if s = [] then "Path".toList else s
  let t := trimChars base
  if t = [] then "Path".toList else t

/-- Parsed form of the first variant's header pattern. -/
def headerRE (tokens : CommentTokens) (label : List Char) : RE :=
  (parsePattern (headerRegex tokens label)).getD .eps

/-- Parsed form of the second variant's header pattern. -/
def headerREV2 (tokens : CommentTokens) (label : List Char) : RE :=
  (parsePattern (headerRegexV2 tokens label)).getD .eps

/-- The edit decision of the first variant's `ensureHeader`, given the
resolved relative path `rel` (the value of `asRelativePath(doc.uri,
false)`): run the header pattern over the first `min(10, lineCount)`
lines; on a match, replace offsets 0 to the match length with the
rendered header unless the trimmed capture already equals `rel`; with no
match, insert the rendered header at the insertion position. -/
def ensureHeaderDecision (d : TextDoc) (languageId : String)
    (labelCfg : Option (List Char)) (rel : List Char) : EditDecision :=
  let label := resolveLabel labelCfg
  let tokens := getCommentTokens languageId
  let txt := headerText tokens label rel d.eol
  match execAnchored (headerRE tokens label) (chunkText d) with
  | some (mlen, cap) =>
    if trimChars cap = rel then .noOp else .replaceRange 0 mlen txt
  | none => .insertAt (insertionOffset d.text) txt

/-- Modelled from the spec: the host path resolver interface.  With
`includeWorkspaceFolder` disabled, the resolver yields the
workspace-relative path when the document lies in a workspace folder and
the absolute file name otherwise.  `ws` is the name of the enclosing
workspace folder, when one exists; `relRaw` is the resolver's
folder-relative path; `fileName` is the absolute path. -/
def asRelativePathModel (ws : Option (List Char))
    (relRaw fileName : List Char) : List Char :=
  match ws with
  | none => fileName
  | some _ => relRaw

/-- `getRelPathOrAbs` of the second variant: absolute path outside any
workspace folder; otherwise the relative path, prefixed by the workspace
folder name and a slash when `includeWorkspaceFolder` is enabled (the
configuration default is true). -/
def getRelPathOrAbs (ws : Option (List Char)) (relRaw fileName : List Char)
    (includeWsName : Bool) : List Char :=
  match ws with
  | none => fileName
  | some name =>
    if includeWsName then name ++ ['/'] ++ relRaw else relRaw

/-- The edit decision of the second variant's `ensureHeader`: as the
first, but the path comes from `getRelPathOrAbs` and the pattern from the
second variant's `headerRegex`. -/
def ensureHeaderDecisionV2 (d : TextDoc) (languageId : String)
    (labelCfg : Option (List Char)) (ws : Option (List Char))
    (relRaw fileName : List Char) (includeWsName : Bool) : EditDecision :=
  let label := resolveLabel labelCfg
  let tokens := getCommentTokens languageId
  let rel := getRelPathOrAbs ws relRaw fileName includeWsName
  let txt := headerText tokens label rel d.eol
  match execAnchored (headerREV2 tokens label) (chunkText d) with
  | some (mlen, cap) =>
    if trimChars cap = rel then .noOp else .replaceRange 0 mlen txt
  | none => .insertAt (insertionOffset d.text) txt

/-- Both variants guard `ensureHeader` with an early return when there is
no active editor or the triggering document is not the active editor's
document.  Editors are identified by the id of their document; the early
return registers no edit, raises nothing and shows no message, which the
`noOp` decision models. -/
def ensureHeaderRun (active : Option Nat) (docId : Nat) (d : TextDoc)
    (languageId : String) (labelCfg : Option (List Char))
    (rel : List Char) : EditDecision :=
  match active with
  | none => .noOp
  | some e =>
    if e = docId then ensureHeaderDecision d languageId labelCfg rel
    else .noOp

/-- Apply an edit decision to a text (`editor.edit` with one registered
operation, or none). -/
def applyEdit (s : List Char) : EditDecision → List Char
  | .noOp => s
  | .insertAt o t => s.take o ++ t ++ s.drop o
  | .replaceRange a b t => s.take a ++ t ++ s.drop b

/-! ## Parsing the generated patterns

The patterns built by `headerRegex` (either variant) always parse, and
parse to the expected syntax tree: optional whitespace, the start
delimiter and the label as literal characters, a colon, optional
whitespace, the capture group of one-or-more non-terminator characters,
the end delimiter as literal characters, then optional CR and LF. -/

/-- A literal string as a sequence of literal-character atoms in front of
a continuation. -/
def litSeq (l : List Char) (tail : RE) : RE :=
  l.foldr (fun c r => .seq (.atom (.lit c)) r) tail

/-- The syntax tree of a generated header pattern. -/
def expectedRE (tokens : CommentTokens) (label : List Char) : RE :=
  .seq (.star .ws)
    (litSeq tokens.startTok
      (litSeq label
        (.seq (.atom (.lit ':'))
          (.seq (.star .ws)
            (.seq (.group (.seq (.plus .anyND) .eps))
              (litSeq tokens.stopTok
                (.seq (.opt (.lit '\r'))
                  (.seq (.opt (.lit '\n')) .eps))))))))

/-- Step equation: tokenizing a cons. -/
theorem tokenize_cons (c : Char) (rest : List Char) :
    tokenize (c :: rest) =
      if c = '\\' then
        match rest with
        | [] => none
        | c2 :: rest2 =>
          match escTok c2 with
          | some t => (tokenize rest2).map (t :: ·)
          | none => none
      else
        match charTok c with
        | some t => (tokenize rest).map (t :: ·)
        | none => none := by
  cases rest with
  | nil => rw [tokenize.eq_2]
  | cons c2 rest2 => rw [tokenize.eq_3]

/-- Step equation: the parser at the end of input, outside a group. -/
theorem parseAux_nil_false (acc accOut : List RE) :
    parseAux [] false acc accOut = some (build acc) := rfl

/-- Step equation: the parser at the end of input, inside a group. -/
theorem parseAux_nil_true (acc accOut : List RE) :
    parseAux [] true acc accOut = none := rfl

/-- Step equation: closing parenthesis inside the group. -/
theorem parseAux_rparen_true (rest : List Tok) (accIn accOut : List RE) :
    parseAux (.rparen :: rest) true accIn accOut =
      if headQuant rest then none
      else parseAux rest false (.group (build accIn) :: accOut) [] := rfl

/-- Step equation: opening parenthesis outside the group. -/
theorem parseAux_lparen_false (rest : List Tok) (acc accOut : List RE) :
    parseAux (.lparen :: rest) false acc accOut =
      parseAux rest true [] acc := rfl

/-- Step equation: a literal token as the last token. -/
theorem parseAux_lit_nil (c : Char) (ing : Bool) (acc accOut : List RE) :
    parseAux [Tok.lit c] ing acc accOut =
      if ing then none else some (build (.atom (.lit c) :: acc)) := rfl

/-- Step equation: a literal token followed by more tokens. -/
theorem parseAux_lit_cons (c : Char) (q : Tok) (rest2 : List Tok)
    (ing : Bool) (acc accOut : List RE) :
    parseAux (Tok.lit c :: q :: rest2) ing acc accOut =
      if isQuant q then
        parseAux rest2 ing (applyQuant (.lit c) q :: acc) accOut
      else parseAux (q :: rest2) ing (.atom (.lit c) :: acc) accOut := rfl

/-- Step equation: a whitespace-class token followed by more tokens. -/
theorem parseAux_wsC_cons (q : Tok) (rest2 : List Tok)
    (ing : Bool) (acc accOut : List RE) :
    parseAux (Tok.wsC :: q :: rest2) ing acc accOut =
      if isQuant q then
        parseAux rest2 ing (applyQuant .ws q :: acc) accOut
      else parseAux (q :: rest2) ing (.atom .ws :: acc) accOut := rfl

/-- Step equation: a dot token followed by more tokens. -/
theorem parseAux_dot_cons (q : Tok) (rest2 : List Tok)
    (ing : Bool) (acc accOut : List RE) :
    parseAux (Tok.dot :: q :: rest2) ing acc accOut =
      if isQuant q then
        parseAux rest2 ing (applyQuant .anyND q :: acc) accOut
      else parseAux (q :: rest2) ing (.atom .anyND :: acc) accOut := rfl

/-- Characters of the first escape class are symbols, so escaping them
produces an identity escape. -/
theorem escTok_of_meta1 {c : Char} (h : isMeta1 c = true) :
    escTok c = some (.lit c) := by
  have hm : c ∈ ['.', '*', '+', '?', '^', '$', '\x7b', '\x7d', '(', ')',
      '|', '[', ']', '\\'] := by simpa [isMeta1] using h
  fin_cases hm <;> decide

/-- Same for the second escape class. -/
theorem escTok_of_meta2 {c : Char} (h : isMeta2 c = true) :
    escTok c = some (.lit c) := by
  have hm : c ∈ ['-', '/', '\\', '^', '$', '*', '+', '?', '.', '(', ')',
      '|', '[', ']', '\x7b', '\x7d'] := by simpa [isMeta2] using h
  fin_cases hm <;> decide

/-- A character outside the first escape class is not a supported
metacharacter, so it stands for itself. -/
theorem charTok_of_not_meta1 {c : Char} (h : isMeta1 c = false) :
    charTok c = some (.lit c) := by
  simp only [isMeta1, List.mem_cons, List.not_mem_nil, or_false,
    decide_eq_false_iff_not, not_or] at h
  obtain ⟨h1, h2, h3, h4, h5, h6, h7, h8, h9, h10, h11, h12, h13, h14⟩ := h
  simp [charTok, h1, h2, h3, h4, h5, h6, h7, h8, h9, h10, h11, h12, h13]

/-- A character outside the first escape class is not a backslash. -/
theorem ne_backslash_of_not_meta1 {c : Char} (h : isMeta1 c = false) :
    c ≠ '\\' := by
  simp only [isMeta1, List.mem_cons, List.not_mem_nil, or_false,
    decide_eq_false_iff_not, not_or] at h
  exact h.2.2.2.2.2.2.2.2.2.2.2.2.2

/-- Every character of the first escape class is in the second. -/
theorem isMeta2_of_isMeta1 {c : Char} (h : isMeta1 c = true) :
    isMeta2 c = true := by
  have hm : c ∈ ['.', '*', '+', '?', '^', '$', '\x7b', '\x7d', '(', ')',
      '|', '[', ']', '\\'] := by simpa [isMeta1] using h
  fin_cases hm <;> decide

/-- Contrapositive form. -/
theorem not_isMeta1_of_not_isMeta2 {c : Char} (h : isMeta2 c = false) :
    isMeta1 c = false := by
  by_contra hc
  have h1 : isMeta1 c = true := by
    cases hm : isMeta1 c
    · exact absurd hm hc
    · rfl
  rw [isMeta2_of_isMeta1 h1] at h
  simp at h

/-- A character outside the second escape class stands for itself. -/
theorem charTok_of_not_meta2 {c : Char} (h : isMeta2 c = false) :
    charTok c = some (.lit c) :=
  charTok_of_not_meta1 (not_isMeta1_of_not_isMeta2 h)

/-- A character outside the second escape class is not a backslash. -/
theorem ne_backslash_of_not_meta2 {c : Char} (h : isMeta2 c = false) :
    c ≠ '\\' :=
  ne_backslash_of_not_meta1 (not_isMeta1_of_not_isMeta2 h)

/-- Tokenizing an escaped literal string prepends its characters as
literal tokens. -/
theorem tokenize_escWith (meta : Char → Bool)
    (hesc : ∀ c, meta c = true → escTok c = some (.lit c))
    (hchar : ∀ c, meta c = false → charTok c = some (.lit c))
    (hbs : ∀ c, meta c = false → c ≠ '\\') :
    ∀ (s rest : List Char),
      tokenize (escWith meta s ++ rest) =
        (tokenize rest).map (fun ts => s.map Tok.lit ++ ts) := by
  intro s
  induction s with
  | nil =>
    intro rest
    simp only [escWith, List.map_nil, List.flatten_nil, List.nil_append,
      List.nil_append]
    cases tokenize rest <;> simp
  | cons c s ih =>
    intro rest
    by_cases hm : meta c = true
    · have he : escWith meta (c :: s) = '\\' :: c :: escWith meta s := by
        simp [escWith, hm]
      rw [he, List.cons_append, List.cons_append, tokenize.eq_3,
        if_pos rfl, hesc c hm, ih rest]
      cases tokenize rest <;> simp
    · have hm2 : meta c = false := by
        cases hv : meta c
        · rfl
        · exact absurd hv hm
      have he : escWith meta (c :: s) = c :: escWith meta s := by
        simp [escWith, hm2]
      rw [he, List.cons_append, tokenize_cons, if_neg (hbs c hm2)]
      rw [hchar c hm2, ih rest]
      cases tokenize rest <;> simp

/-- A token list starting with literal tokens, or otherwise with another
literal token, does not start with a quantifier. -/
theorem headQuant_lits_append (l : List Char) (c : Char) (ts : List Tok) :
    headQuant (l.map Tok.lit ++ (Tok.lit c :: ts)) = false := by
  cases l <;> simp [headQuant, isQuant]

/-- Running the parser over a run of literal tokens pushes the matching
literal atoms, provided no quantifier follows the run. -/
theorem parseAux_lits (l : List Char) :
    ∀ (ts : List Tok) (ing : Bool) (acc accOut : List RE),
      headQuant ts = false →
      parseAux (l.map Tok.lit ++ ts) ing acc accOut =
        parseAux ts ing
          ((l.map (fun c => RE.atom (.lit c))).reverse ++ acc) accOut := by
  induction l with
  | nil => intro ts ing acc accOut h; simp
  | cons c l ih =>
    intro ts ing acc accOut h
    rw [List.map_cons, List.cons_append]
    cases l with
    | nil =>
      simp only [List.map_nil, List.nil_append]
      cases ts with
      | nil =>
        rw [parseAux_lit_nil]
        cases ing
        · rw [if_neg (by simp)]
          rw [parseAux_nil_false]
          simp
        · rw [if_pos rfl]
          rw [parseAux_nil_true]
      | cons q ts2 =>
        rw [headQuant] at h
        rw [parseAux_lit_cons, if_neg (by simp [h])]
        simp
    | cons c2 l2 =>
      rw [List.map_cons, List.cons_append, parseAux_lit_cons,
        if_neg (by simp [isQuant])]
      rw [← List.cons_append, ← List.map_cons]
      rw [ih ts ing (RE.atom (CAtom.lit c) :: acc) accOut h]
      simp

/-- The backslash-s star segment pushes a whitespace star. -/
theorem parseAux_wsStar (ts : List Tok) (ing : Bool) (acc accOut : List RE) :
    parseAux (Tok.wsC :: Tok.star :: ts) ing acc accOut =
      parseAux ts ing (.star .ws :: acc) accOut := by
  rw [parseAux_wsC_cons, if_pos (by simp [isQuant])]
  rfl

/-- The capture-group segment pushes the group of one-or-more arbitrary
non-terminator characters, provided no quantifier follows the group. -/
theorem parseAux_groupSeg (ts : List Tok) (acc accOut : List RE)
    (h : headQuant ts = false) :
    parseAux (Tok.lparen :: Tok.dot :: Tok.plus :: Tok.rparen :: ts)
        false acc accOut =
      parseAux ts false (.group (.seq (.plus .anyND) .eps) :: acc) [] := by
  rw [parseAux_lparen_false, parseAux_dot_cons, if_pos (by simp [isQuant])]
  rw [parseAux_rparen_true, if_neg (by simp [h])]
  simp [build, applyQuant]

/-- The trailing optional-CR optional-LF segment closes the parse. -/
theorem parseAux_tail (acc : List RE) :
    parseAux [Tok.lit '\r', Tok.opt, Tok.lit '\n', Tok.opt] false acc [] =
      some (build (.opt (.lit '\n') :: .opt (.lit '\r') :: acc)) := by
  rw [parseAux_lit_cons, if_pos (by simp [isQuant])]
  rw [parseAux_lit_cons, if_pos (by simp [isQuant])]
  rw [parseAux_nil_false]
  rfl

/-- Assembling a reversed accumulator folds the forward item list into a
right-nested sequence. -/
theorem build_reverse (A : List RE) :
    build A.reverse = A.foldr (fun x r => RE.seq x r) .eps := by
  simp [build, List.foldl_reverse]

/-- Tokenizing a non-backslash character with a literal meaning. -/
theorem tokenize_char_cons (c : Char) (t : Tok) (hc : ¬ c = '\\')
    (ht : charTok c = some t) (rest : List Char) :
    tokenize (c :: rest) = (tokenize rest).map (t :: ·) := by
  rw [tokenize_cons, if_neg hc, ht]

/-- Tokenizing a backslash escape. -/
theorem tokenize_esc_cons (c : Char) (t : Tok) (ht : escTok c = some t)
    (rest : List Char) :
    tokenize ('\\' :: c :: rest) = (tokenize rest).map (t :: ·) := by
  rw [tokenize.eq_3, if_pos rfl, ht]

/-- The token list of a generated header pattern, after the caret. -/
def headerToks (tokens : CommentTokens) (label : List Char) : List Tok :=
  [Tok.wsC, Tok.star] ++ tokens.startTok.map Tok.lit ++
  label.map Tok.lit ++
  [Tok.lit ':', Tok.wsC, Tok.star, Tok.lparen, Tok.dot, Tok.plus,
   Tok.rparen] ++
  tokens.stopTok.map Tok.lit ++
  [Tok.lit '\r', Tok.opt, Tok.lit '\n', Tok.opt]

/-- Tokenization of a generated header pattern. -/
theorem tokenize_header (meta : Char → Bool)
    (hesc : ∀ c, meta c = true → escTok c = some (.lit c))
    (hchar : ∀ c, meta c = false → charTok c = some (.lit c))
    (hbs : ∀ c, meta c = false → c ≠ '\\')
    (tokens : CommentTokens) (label : List Char) :
    tokenize (['\\', 's', '*'] ++ escWith meta tokens.startTok ++
        escWith meta label ++
        [':', '\\', 's', '*', '(', '.', '+', ')'] ++
        escWith meta tokens.stopTok ++ ['\\', 'r', '?', '\\', 'n', '?']) =
      some (headerToks tokens label) := by
  have htail : tokenize ['\\', 'r', '?', '\\', 'n', '?'] =
      some [Tok.lit '\r', Tok.opt, Tok.lit '\n', Tok.opt] := by decide
  simp only [List.append_assoc, List.cons_append, List.nil_append]
  rw [tokenize_esc_cons 's' Tok.wsC (by decide)]
  rw [tokenize_char_cons '*' Tok.star (by decide) (by decide)]
  rw [tokenize_escWith meta hesc hchar hbs tokens.startTok]
  rw [tokenize_escWith meta hesc hchar hbs label]
  rw [tokenize_char_cons ':' (Tok.lit ':') (by decide) (by decide)]
  rw [tokenize_esc_cons 's' Tok.wsC (by decide)]
  rw [tokenize_char_cons '*' Tok.star (by decide) (by decide)]
  rw [tokenize_char_cons '(' Tok.lparen (by decide) (by decide)]
  rw [tokenize_char_cons '.' Tok.dot (by decide) (by decide)]
  rw [tokenize_char_cons '+' Tok.plus (by decide) (by decide)]
  rw [tokenize_char_cons ')' Tok.rparen (by decide) (by decide)]
  rw [tokenize_escWith meta hesc hchar hbs tokens.stopTok]
  rw [htail]
  simp [headerToks]

/-- Parsing the token list of a generated header pattern yields the
expected syntax tree. -/
theorem parseAux_header (tokens : CommentTokens) (label : List Char) :
    parseAux (headerToks tokens label) false [] [] =
      some (expectedRE tokens label) := by
  rw [headerToks]
  simp only [List.append_assoc, List.cons_append, List.nil_append]
  rw [parseAux_wsStar]
  rw [parseAux_lits tokens.startTok _ _ _ _ (headQuant_lits_append _ ':' _)]
  rw [parseAux_lits label _ _ _ _ (by rw [headQuant]; simp [isQuant])]
  rw [parseAux_lit_cons, if_neg (by simp [isQuant])]
  rw [parseAux_wsStar]
  rw [parseAux_groupSeg _ _ _ (headQuant_lits_append _ '\r' _)]
  rw [parseAux_lits tokens.stopTok _ _ _ _ (by rw [headQuant]; simp [isQuant])]
  rw [parseAux_tail]
  have hacc :
      RE.opt (CAtom.lit '\n') :: RE.opt (CAtom.lit '\r') ::
        ((tokens.stopTok.map (fun c => RE.atom (.lit c))).reverse ++
          (RE.group (.seq (.plus .anyND) .eps) :: RE.star .ws ::
            RE.atom (.lit ':') ::
            ((label.map (fun c => RE.atom (.lit c))).reverse ++
              ((tokens.startTok.map (fun c => RE.atom (.lit c))).reverse ++
                [RE.star .ws])))) =
      ([RE.star .ws] ++ tokens.startTok.map (fun c => RE.atom (.lit c)) ++
        label.map (fun c => RE.atom (.lit c)) ++
        [RE.atom (.lit ':'), RE.star .ws,
         RE.group (.seq (.plus .anyND) .eps)] ++
        tokens.stopTok.map (fun c => RE.atom (.lit c)) ++
        [RE.opt (.lit '\r'), RE.opt (.lit '\n')]).reverse := by
    simp [List.reverse_append]
  rw [hacc, build_reverse]
  simp [expectedRE, litSeq, List.foldr_append, List.foldr_map]

/-- Step equation: a caret-anchored pattern. -/
theorem parsePattern_caret (rest : List Char) :
    parsePattern ('^' :: rest) =
      (tokenize rest).bind (fun ts => parseAux ts false [] []) := by
  rw [parsePattern.eq_def]
  simp

/-- The first variant's pattern parses to the expected syntax tree, for
every comment style and label. -/
theorem parse_headerRegex (tokens : CommentTokens) (label : List Char) :
    parsePattern (headerRegex tokens label) =
      some (expectedRE tokens label) := by
  rw [headerRegex, headerPatternWith]
  simp only [escape1]
  rw [show ((['^', '\\', 's', '*'] : List Char) ++
      escWith isMeta1 tokens.startTok ++ escWith isMeta1 label ++
      [':', '\\', 's', '*', '(', '.', '+', ')'] ++
      escWith isMeta1 tokens.stopTok ++ ['\\', 'r', '?', '\\', 'n', '?']) =
      '^' :: (['\\', 's', '*'] ++ escWith isMeta1 tokens.startTok ++
        escWith isMeta1 label ++ [':', '\\', 's', '*', '(', '.', '+', ')'] ++
        escWith isMeta1 tokens.stopTok ++ ['\\', 'r', '?', '\\', 'n', '?'])
      from by simp]
  rw [parsePattern_caret]
  rw [tokenize_header isMeta1
    (fun c h => escTok_of_meta1 h)
    (fun c h => charTok_of_not_meta1 h)
    (fun c h => ne_backslash_of_not_meta1 h) tokens label]
  simpa using parseAux_header tokens label

/-- The second variant's pattern parses to the same syntax tree. -/
theorem parse_headerRegexV2 (tokens : CommentTokens) (label : List Char) :
    parsePattern (headerRegexV2 tokens label) =
      some (expectedRE tokens label) := by
  rw [headerRegexV2, headerPatternWith]
  simp only [reEscape]
  rw [show ((['^', '\\', 's', '*'] : List Char) ++
      escWith isMeta2 tokens.startTok ++ escWith isMeta2 label ++
      [':', '\\', 's', '*', '(', '.', '+', ')'] ++
      escWith isMeta2 tokens.stopTok ++ ['\\', 'r', '?', '\\', 'n', '?']) =
      '^' :: (['\\', 's', '*'] ++ escWith isMeta2 tokens.startTok ++
        escWith isMeta2 label ++ [':', '\\', 's', '*', '(', '.', '+', ')'] ++
        escWith isMeta2 tokens.stopTok ++ ['\\', 'r', '?', '\\', 'n', '?'])
      from by simp]
  rw [parsePattern_caret]
  rw [tokenize_header isMeta2
    (fun c h => escTok_of_meta2 h)
    (fun c h => charTok_of_not_meta2 h)
    (fun c h => ne_backslash_of_not_meta2 h) tokens label]
  simpa using parseAux_header tokens label

/-- The parsed regex used by the first variant's decision. -/
theorem headerRE_eq (tokens : CommentTokens) (label : List Char) :
    headerRE tokens label = expectedRE tokens label := by
  rw [headerRE, parse_headerRegex]
  rfl

/-- The parsed regex used by the second variant's decision. -/
theorem headerREV2_eq (tokens : CommentTokens) (label : List Char) :
    headerREV2 tokens label = expectedRE tokens label := by
  rw [headerREV2, parse_headerRegexV2]
  rfl

/-! ## The language of a generated header pattern -/

/-- Inversion: the empty regex matches only the empty string. -/
theorem rmatch_eps_iff {w : List Char} : RMatch .eps w ↔ w = [] := by
  constructor
  · intro h; cases h; rfl
  · intro h; subst h; exact RMatch.eps

/-- Inversion: a single-character atom. -/
theorem rmatch_atom_iff {a : CAtom} {w : List Char} :
    RMatch (.atom a) w ↔ ∃ c, w = [c] ∧ catomMatches a c = true := by
  constructor
  · intro h
    cases h with
    | atom hc => exact ⟨_, rfl, hc⟩
  · rintro ⟨c, rfl, hc⟩
    exact RMatch.atom hc

/-- Inversion: a greedy star matches exactly the all-matching strings. -/
theorem rmatch_star_iff {a : CAtom} {w : List Char} :
    RMatch (.star a) w ↔ ∀ c ∈ w, catomMatches a c = true := by
  constructor
  · intro h
    induction w with
    | nil => simp
    | cons c w ih =>
      cases h with
      | star_cons hc hw =>
        intro x hx
        rcases List.mem_cons.mp hx with rfl | hx2
        · exact hc
        · exact ih hw x hx2
  · intro h
    induction w with
    | nil => exact RMatch.star_nil
    | cons c w ih =>
      exact RMatch.star_cons (h c (by simp))
        (ih (fun x hx => h x (by simp [hx])))

/-- Inversion: a greedy plus. -/
theorem rmatch_plus_iff {a : CAtom} {w : List Char} :
    RMatch (.plus a) w ↔ w ≠ [] ∧ ∀ c ∈ w, catomMatches a c = true := by
  constructor
  · intro h
    cases h with
    | plus_mk hc hw =>
      refine ⟨by simp, ?_⟩
      intro x hx
      rcases List.mem_cons.mp hx with rfl | hx2
      · exact hc
      · exact rmatch_star_iff.mp hw x hx2
  · rintro ⟨hne, h⟩
    match w, hne with
    | c :: w, _ =>
      exact RMatch.plus_mk (h c (by simp))
        (rmatch_star_iff.mpr (fun x hx => h x (by simp [hx])))

/-- Inversion: an optional atom. -/
theorem rmatch_opt_iff {a : CAtom} {w : List Char} :
    RMatch (.opt a) w ↔
      w = [] ∨ ∃ c, w = [c] ∧ catomMatches a c = true := by
  constructor
  · intro h
    cases h with
    | opt_nil => exact Or.inl rfl
    | opt_one hc => exact Or.inr ⟨_, rfl, hc⟩
  · rintro (rfl | ⟨c, rfl, hc⟩)
    · exact RMatch.opt_nil
    · exact RMatch.opt_one hc

/-- Inversion: a sequence splits the string. -/
theorem rmatch_seq_iff {r1 r2 : RE} {w : List Char} :
    RMatch (.seq r1 r2) w ↔
      ∃ u v, w = u ++ v ∧ RMatch r1 u ∧ RMatch r2 v := by
  constructor
  · intro h
    cases h with
    | seq_mk h1 h2 => exact ⟨_, _, rfl, h1, h2⟩
  · rintro ⟨u, v, rfl, h1, h2⟩
    exact RMatch.seq_mk h1 h2

/-- Inversion: a group is transparent for matching. -/
theorem rmatch_group_iff {r : RE} {w : List Char} :
    RMatch (.group r) w ↔ RMatch r w := by
  constructor
  · intro h
    cases h with
    | group_mk h1 => exact h1
  · exact RMatch.group_mk

/-- Inversion: a literal run consumes exactly itself. -/
theorem rmatch_litSeq_iff {l : List Char} {tail : RE} {w : List Char} :
    RMatch (litSeq l tail) w ↔ ∃ v, w = l ++ v ∧ RMatch tail v := by
  induction l generalizing w with
  | nil => simp [litSeq]
  | cons c l ih =>
    constructor
    · intro h
      rcases rmatch_seq_iff.mp h with ⟨u, v, rfl, h1, h2⟩
      rcases rmatch_atom_iff.mp h1 with ⟨c2, rfl, hc⟩
      have : c2 = c := by simpa [catomMatches] using hc
      subst this
      rcases ih.mp h2 with ⟨v2, rfl, h3⟩
      exact ⟨v2, by simp, h3⟩
    · rintro ⟨v, rfl, h⟩
      have h1 : RMatch (.atom (.lit c)) [c] :=
        RMatch.atom (by simp [catomMatches])
      have h2 : RMatch (litSeq l tail) (l ++ v) := ih.mpr ⟨v, rfl, h⟩
      simpa using RMatch.seq_mk h1 h2

/-- The capture group matches exactly the non-empty strings free of line
terminators. -/
theorem rmatch_capture_iff {p : List Char} :
    RMatch (.group (.seq (.plus .anyND) .eps)) p ↔
      p ≠ [] ∧ ∀ c ∈ p, lineTerm c = false := by
  rw [rmatch_group_iff, rmatch_seq_iff]
  constructor
  · rintro ⟨u, v, rfl, h1, h2⟩
    rw [rmatch_eps_iff] at h2
    subst h2
    rcases rmatch_plus_iff.mp h1 with ⟨hne, h⟩
    refine ⟨by simpa using hne, ?_⟩
    intro c hc
    have := h c (by simpa using hc)
    simpa [catomMatches] using this
  · rintro ⟨hne, h⟩
    refine ⟨p, [], by simp, ?_, RMatch.eps⟩
    exact rmatch_plus_iff.mpr
      ⟨hne, fun c hc => by simp [catomMatches, h c hc]⟩

/-- The optional-terminator tail matches exactly the four line-ending
possibilities. -/
theorem rmatch_tail_iff {t : List Char} :
    RMatch (.seq (.opt (.lit '\r')) (.seq (.opt (.lit '\n')) .eps)) t ↔
      (t = [] ∨ t = ['\r'] ∨ t = ['\n'] ∨ t = ['\r', '\n']) := by
  constructor
  · intro h
    rcases rmatch_seq_iff.mp h with ⟨u, v, rfl, h1, h2⟩
    rcases rmatch_seq_iff.mp h2 with ⟨u2, v2, rfl, h3, h4⟩
    rw [rmatch_eps_iff] at h4
    subst h4
    rcases rmatch_opt_iff.mp h1 with rfl | ⟨c, rfl, hc⟩ <;>
      rcases rmatch_opt_iff.mp h3 with rfl | ⟨c2, rfl, hc2⟩
    · simp
    · have : c2 = '\n' := by simpa [catomMatches] using hc2
      subst this; simp
    · have : c = '\r' := by simpa [catomMatches] using hc
      subst this; simp
    · have e1 : c = '\r' := by simpa [catomMatches] using hc
      have e2 : c2 = '\n' := by simpa [catomMatches] using hc2
      subst e1; subst e2; simp
  · rintro (rfl | rfl | rfl | rfl)
    · exact RMatch.seq_mk RMatch.opt_nil (RMatch.seq_mk RMatch.opt_nil RMatch.eps)
    · simpa using RMatch.seq_mk (RMatch.opt_one (by simp [catomMatches]))
        (RMatch.seq_mk (RMatch.opt_nil) RMatch.eps)
    · simpa using RMatch.seq_mk RMatch.opt_nil
        (RMatch.seq_mk (RMatch.opt_one (by simp [catomMatches])) RMatch.eps)
    · simpa using RMatch.seq_mk (RMatch.opt_one (by simp [catomMatches]))
        (RMatch.seq_mk (RMatch.opt_one (by simp [catomMatches])) RMatch.eps)

/-- The shape of a string accepted by a generated header pattern:
optional leading whitespace, the start delimiter verbatim, the label
verbatim, a colon, optional whitespace, a non-empty path free of line
terminators, the end delimiter verbatim, and an optional line
terminator. -/
def HeaderShape (startT label stopT s : List Char) : Prop :=
  ∃ w1 w2 p t,
    (∀ c ∈ w1, jsWhitespace c = true) ∧
    (∀ c ∈ w2, jsWhitespace c = true) ∧
    p ≠ [] ∧ (∀ c ∈ p, lineTerm c = false) ∧
    (t = [] ∨ t = ['\r'] ∨ t = ['\n'] ∨ t = ['\r', '\n']) ∧
    s = w1 ++ startT ++ label ++ [':'] ++ w2 ++ p ++ stopT ++ t

/-- The language of the expected syntax tree is exactly `HeaderShape`. -/
theorem rmatch_expected_iff (tokens : CommentTokens) (label s : List Char) :
    RMatch (expectedRE tokens label) s ↔
      HeaderShape tokens.startTok label tokens.stopTok s := by
  rw [expectedRE]
  constructor
  · intro h
    rcases rmatch_seq_iff.mp h with ⟨w1, v1, rfl, hw1, h1⟩
    rcases rmatch_litSeq_iff.mp h1 with ⟨v2, rfl, h2⟩
    rcases rmatch_litSeq_iff.mp h2 with ⟨v3, rfl, h3⟩
    rcases rmatch_seq_iff.mp h3 with ⟨uc, v4, rfl, hc, h4⟩
    rcases rmatch_atom_iff.mp hc with ⟨c, rfl, hcc⟩
    have : c = ':' := by simpa [catomMatches] using hcc
    subst this
    rcases rmatch_seq_iff.mp h4 with ⟨w2, v5, rfl, hw2, h5⟩
    rcases rmatch_seq_iff.mp h5 with ⟨p, v6, rfl, hp, h6⟩
    rcases rmatch_litSeq_iff.mp h6 with ⟨t, rfl, h7⟩
    refine ⟨w1, w2, p, t, ?_, ?_, ?_, ?_, ?_, by simp⟩
    · intro c hc2
      simpa [catomMatches] using rmatch_star_iff.mp hw1 c hc2
    · intro c hc2
      simpa [catomMatches] using rmatch_star_iff.mp hw2 c hc2
    · exact (rmatch_capture_iff.mp hp).1
    · exact (rmatch_capture_iff.mp hp).2
    · exact rmatch_tail_iff.mp h7
  · rintro ⟨w1, w2, p, t, hw1, hw2, hpne, hpnt, ht, rfl⟩
    have m1 : RMatch (.star .ws) w1 :=
      rmatch_star_iff.mpr (fun c hc => by simp [catomMatches, hw1 c hc])
    have m2 : RMatch (.star .ws) w2 :=
      rmatch_star_iff.mpr (fun c hc => by simp [catomMatches, hw2 c hc])
    have mc : RMatch (.atom (.lit ':')) [':'] :=
      RMatch.atom (by simp [catomMatches])
    have mp : RMatch (.group (.seq (.plus .anyND) .eps)) p :=
      rmatch_capture_iff.mpr ⟨hpne, hpnt⟩
    have mt : RMatch (.seq (.opt (.lit '\r'))
        (.seq (.opt (.lit '\n')) .eps)) t := rmatch_tail_iff.mpr ht
    have mstop : RMatch (litSeq tokens.stopTok
        (.seq (.opt (.lit '\r')) (.seq (.opt (.lit '\n')) .eps)))
        (tokens.stopTok ++ t) :=
      rmatch_litSeq_iff.mpr ⟨t, rfl, mt⟩
    have mgs : RMatch (.seq (.group (.seq (.plus .anyND) .eps))
        (litSeq tokens.stopTok (.seq (.opt (.lit '\r'))
          (.seq (.opt (.lit '\n')) .eps))))
        (p ++ (tokens.stopTok ++ t)) := RMatch.seq_mk mp mstop
    have mw2 : RMatch (.seq (.star .ws) (.seq (.group (.seq (.plus .anyND) .eps))
        (litSeq tokens.stopTok (.seq (.opt (.lit '\r'))
          (.seq (.opt (.lit '\n')) .eps)))))
        (w2 ++ (p ++ (tokens.stopTok ++ t))) := RMatch.seq_mk m2 mgs
    have mcol : RMatch (.seq (.atom (.lit ':'))
        (.seq (.star .ws) (.seq (.group (.seq (.plus .anyND) .eps))
          (litSeq tokens.stopTok (.seq (.opt (.lit '\r'))
            (.seq (.opt (.lit '\n')) .eps))))))
        ([':'] ++ (w2 ++ (p ++ (tokens.stopTok ++ t)))) :=
      RMatch.seq_mk mc mw2
    have mlabel : RMatch (litSeq label (.seq (.atom (.lit ':'))
        (.seq (.star .ws) (.seq (.group (.seq (.plus .anyND) .eps))
          (litSeq tokens.stopTok (.seq (.opt (.lit '\r'))
            (.seq (.opt (.lit '\n')) .eps)))))))
        (label ++ ([':'] ++ (w2 ++ (p ++ (tokens.stopTok ++ t))))) :=
      rmatch_litSeq_iff.mpr ⟨_, rfl, mcol⟩
    have mstart : RMatch (litSeq tokens.startTok (litSeq label
        (.seq (.atom (.lit ':'))
          (.seq (.star .ws) (.seq (.group (.seq (.plus .anyND) .eps))
            (litSeq tokens.stopTok (.seq (.opt (.lit '\r'))
              (.seq (.opt (.lit '\n')) .eps))))))))
        (tokens.startTok ++ (label ++ ([':'] ++
          (w2 ++ (p ++ (tokens.stopTok ++ t)))))) :=
      rmatch_litSeq_iff.mpr ⟨_, rfl, mlabel⟩
    have final := RMatch.seq_mk m1 mstart
    simpa [List.append_assoc] using final

/-! ## Shape of any successful anchored search -/

/-- Any successful `exec` of the first variant's header pattern matches a
prefix of the scanned text of `HeaderShape` form: in particular the match
reaches the comment delimiter from offset 0 through whitespace alone. -/
theorem exec_some_shape (tokens : CommentTokens) (label : List Char)
    {s : List Char} {mlen : Nat} {cap : List Char}
    (h : execAnchored (headerRE tokens label) s = some (mlen, cap)) :
    mlen ≤ s.length ∧
      HeaderShape tokens.startTok label tokens.stopTok (s.take mlen) := by
  rw [execAnchored] at h
  match hrr : reRun (headerRE tokens label) s with
  | [] => rw [hrr] at h; simp at h
  | (rest, c) :: tl =>
    rw [hrr] at h
    simp only [Option.some.injEq, Prod.mk.injEq] at h
    have hmem : (rest, c) ∈ reRun (headerRE tokens label) s := by
      rw [hrr]; simp
    rcases reRun_sound hmem with ⟨u, hu, hm⟩
    have hlen : s.length = u.length + rest.length := by
      rw [hu]; simp
    have hml : mlen = u.length := by omega
    have htake : s.take mlen = u := by
      rw [hml, hu]
      exact List.take_left u rest
    refine ⟨by omega, ?_⟩
    rw [htake]
    rw [headerRE_eq] at hm
    exact (rmatch_expected_iff tokens label u).mp hm

/-! ## Characterization of the insertion line -/

/-- The blank-run counter is bounded by the list length. -/
theorem skipBlankCount_le (L : List (List Char × List Char)) :
    skipBlankCount L ≤ L.length := by
  induction L with
  | nil => simp [skipBlankCount]
  | cons e rest ih =>
    rw [skipBlankCount]
    split
    · simpa using ih
    · simp

/-- Every line strictly before the counter's value is blank. -/
theorem skipBlankCount_blank (L : List (List Char × List Char)) :
    ∀ j, j < skipBlankCount L → trimChars ((L.getD j ([], [])).1) = [] := by
  induction L with
  | nil => intro j hj; simp [skipBlankCount] at hj
  | cons e rest ih =>
    intro j hj
    rw [skipBlankCount] at hj
    by_cases he : trimChars e.1 = []
    · rw [if_pos he] at hj
      match j with
      | 0 => simpa using he
      | j + 1 =>
        have := ih j (by omega)
        simpa using this
    · rw [if_neg he] at hj
      omega

/-- The counter stops at the end of the list or at a non-blank line. -/
theorem skipBlankCount_stop (L : List (List Char × List Char)) :
    skipBlankCount L = L.length ∨
      (skipBlankCount L < L.length ∧
        trimChars ((L.getD (skipBlankCount L) ([], [])).1) ≠ []) := by
  induction L with
  | nil => simp [skipBlankCount]
  | cons e rest ih =>
    rw [skipBlankCount]
    by_cases he : trimChars e.1 = []
    · rw [if_pos he]
      rcases ih with h | ⟨h1, h2⟩
      · left; simp [h]
      · right
        constructor
        · simp; omega
        · simpa using h2
    · rw [if_neg he]
      right
      simpa using he

/-- Indexing into a dropped list. -/
theorem getD_drop {α : Type} (L : List α) :
    ∀ (n j : Nat) (d : α), (L.drop n).getD j d = L.getD (n + j) d := by
  induction L with
  | nil => intro n j d; simp
  | cons a L ih =>
    intro n j d
    match n with
    | 0 => simp
    | n + 1 =>
      rw [List.drop_succ_cons, ih n j d]
      have : n + 1 + j = (n + j) + 1 := by omega
      rw [this]
      simp

/-! ## The claims -/

/-- C1: the idempotence claim fails on the code, and the code contradicts
its own intent: `insertionPosition` deliberately places the header after a
shebang line, but the anchored search can never find a header there, so a
second run of insert-or-update-header registers another insertion instead
of a `NoOp`, duplicating the header.  Evaluated here on the shell script
`#!/bin/sh\nx\n` with label `Path` and path `a/b.sh`: the first run
inserts the header at offset 10 (line 1); re-running on the resulting
document registers the same insertion again rather than a `NoOp`. -/
theorem c1_shebang_duplicate :
    ensureHeaderDecision ⟨"#!/bin/sh\nx\n".toList, .lf⟩ "shellscript" none
        "a/b.sh".toList =
      .insertAt 10 "# Path: a/b.sh\n".toList ∧
    applyEdit "#!/bin/sh\nx\n".toList
        (ensureHeaderDecision ⟨"#!/bin/sh\nx\n".toList, .lf⟩ "shellscript"
          none "a/b.sh".toList) =
      "#!/bin/sh\n# Path: a/b.sh\nx\n".toList ∧
    ensureHeaderDecision ⟨"#!/bin/sh\n# Path: a/b.sh\nx\n".toList, .lf⟩
        "shellscript" none "a/b.sh".toList =
      .insertAt 10 "# Path: a/b.sh\n".toList ∧
    ensureHeaderDecision ⟨"#!/bin/sh\n# Path: a/b.sh\nx\n".toList, .lf⟩
        "shellscript" none "a/b.sh".toList ≠ .noOp := by
  decide

/-- C2: the synchronization decision is exactly as specified: with no
match over the first min(10, lineCount) lines, an insertion of the
rendered text at the insertion position; with a match whose trimmed
capture equals the target path, no edit; with a match whose trimmed
capture differs, a replacement of offsets 0 to the match length with the
rendered text. -/
theorem c2_decision_cases (d : TextDoc) (langId : String)
    (cfg : Option (List Char)) (rel : List Char) :
    (execAnchored (headerRE (getCommentTokens langId) (resolveLabel cfg))
        (chunkText d) = none →
      ensureHeaderDecision d langId cfg rel =
        .insertAt (insertionOffset d.text)
          (headerText (getCommentTokens langId) (resolveLabel cfg) rel
            d.eol)) ∧
    (∀ mlen cap,
      execAnchored (headerRE (getCommentTokens langId) (resolveLabel cfg))
          (chunkText d) = some (mlen, cap) →
      (trimChars cap = rel →
        ensureHeaderDecision d langId cfg rel = .noOp) ∧
      (trimChars cap ≠ rel →
        ensureHeaderDecision d langId cfg rel =
          .replaceRange 0 mlen
            (headerText (getCommentTokens langId) (resolveLabel cfg) rel
              d.eol))) := by
  refine ⟨fun h => ?_, fun mlen cap h => ⟨fun ht => ?_, fun ht => ?_⟩⟩
  · simp only [ensureHeaderDecision]
    rw [h]
  · simp only [ensureHeaderDecision]
    rw [h]
    simp [ht]
  · simp only [ensureHeaderDecision]
    rw [h]
    simp [ht]

/-- C2 witness: on the header-free python document `x = 1` the decision
is an insertion of the rendered header at the insertion position. -/
theorem c2_decision_cases_witness :
    ensureHeaderDecision ⟨"x = 1\n".toList, .lf⟩ "python" none
        "src/app.py".toList =
      .insertAt (insertionOffset "x = 1\n".toList)
        (headerText (getCommentTokens "python") (resolveLabel none)
          "src/app.py".toList .lf) :=
  (c2_decision_cases ⟨"x = 1\n".toList, .lf⟩ "python" none
    "src/app.py".toList).1 (by decide)

/-- C3 counterexample: the matched span of the header search swallows
blank lines before the header, so a path-change replacement deletes
them.  On the html document with a blank first line and the header
`<!-- Path: old/loc.html -->` on line 1, the replacement span starts at
offset 0 and covers the blank line: the result has one line fewer and its
first line is no longer blank, so a line other than the matched header
line was deleted, refuting the claim that only the matched header line is
replaced. -/
theorem c3_blank_line_deleted :
    ensureHeaderDecision ⟨"\n<!-- Path: old/loc.html -->\nkeep".toList, .lf⟩
        "html" none "new/loc.html".toList =
      .replaceRange 0 29 "<!-- Path: new/loc.html -->\n".toList ∧
    applyEdit "\n<!-- Path: old/loc.html -->\nkeep".toList
        (ensureHeaderDecision
          ⟨"\n<!-- Path: old/loc.html -->\nkeep".toList, .lf⟩ "html" none
          "new/loc.html".toList) =
      "<!-- Path: new/loc.html -->\nkeep".toList ∧
    lineCount "\n<!-- Path: old/loc.html -->\nkeep".toList = 3 ∧
    lineCount "<!-- Path: new/loc.html -->\nkeep".toList = 2 ∧
    lineTextAt "\n<!-- Path: old/loc.html -->\nkeep".toList 0 = [] ∧
    lineTextAt "<!-- Path: new/loc.html -->\nkeep".toList 0 ≠ [] := by
  decide

/-- C3 amended: on a match with a differing path, the edit replaces
exactly the span from offset 0 to the end of the matched text — which
consists of optional whitespace (possibly including whole blank lines),
the header line proper, and its terminator — with the rendered header;
every byte of the document after the matched span is preserved verbatim
after the new header. -/
theorem c3_amended_frame (d : TextDoc) (langId : String)
    (cfg : Option (List Char)) (rel : List Char) (mlen : Nat)
    (cap : List Char)
    (h : execAnchored (headerRE (getCommentTokens langId)
        (resolveLabel cfg)) (chunkText d) = some (mlen, cap))
    (hne : trimChars cap ≠ rel) :
    ensureHeaderDecision d langId cfg rel =
      .replaceRange 0 mlen
        (headerText (getCommentTokens langId) (resolveLabel cfg) rel
          d.eol) ∧
    applyEdit d.text (ensureHeaderDecision d langId cfg rel) =
      headerText (getCommentTokens langId) (resolveLabel cfg) rel d.eol ++
        d.text.drop mlen ∧
    mlen ≤ d.text.length ∧
    HeaderShape (getCommentTokens langId).startTok (resolveLabel cfg)
      (getCommentTokens langId).stopTok (d.text.take mlen) := by
  have hdec : ensureHeaderDecision d langId cfg rel =
      .replaceRange 0 mlen
        (headerText (getCommentTokens langId) (resolveLabel cfg) rel
          d.eol) := by
    simp only [ensureHeaderDecision]
    rw [h]
    simp [hne]
  have hshape := exec_some_shape (getCommentTokens langId)
    (resolveLabel cfg) h
  have hchunklen : (chunkText d).length ≤ d.text.length := by
    simp [chunkText]
  have hml : mlen ≤ d.text.length := le_trans hshape.1 hchunklen
  have htake : d.text.take mlen = (chunkText d).take mlen := by
    rw [chunkText, List.take_take]
    have : min mlen (lineStartOffset d.text (min 10 (lineCount d.text))) =
        mlen := by
      have h2 := hshape.1
      simp only [chunkText, List.length_take] at h2
      omega
    rw [this]
  refine ⟨hdec, ?_, hml, ?_⟩
  · rw [hdec]
    simp [applyEdit]
  · rw [htake]
    exact hshape.2

/-- C3 amended, witness: the html scenario with no blank line — the
header on line 0 is replaced and the rest of the file preserved. -/
theorem c3_amended_frame_witness :
    ensureHeaderDecision ⟨"<!-- Path: old/loc.html -->\nkeep".toList, .lf⟩
        "html" none "new/loc.html".toList =
      .replaceRange 0 28
        (headerText (getCommentTokens "html") (resolveLabel none)
          "new/loc.html".toList .lf) ∧
    applyEdit "<!-- Path: old/loc.html -->\nkeep".toList
        (ensureHeaderDecision
          ⟨"<!-- Path: old/loc.html -->\nkeep".toList, .lf⟩ "html" none
          "new/loc.html".toList) =
      headerText (getCommentTokens "html") (resolveLabel none)
          "new/loc.html".toList .lf ++
        "<!-- Path: old/loc.html -->\nkeep".toList.drop 28 ∧
    28 ≤ "<!-- Path: old/loc.html -->\nkeep".toList.length ∧
    HeaderShape (getCommentTokens "html").startTok (resolveLabel none)
      (getCommentTokens "html").stopTok
      ("<!-- Path: old/loc.html -->\nkeep".toList.take 28) :=
  c3_amended_frame ⟨"<!-- Path: old/loc.html -->\nkeep".toList, .lf⟩
    "html" none "new/loc.html".toList 28 "old/loc.html".toList
    (by decide) (by decide)

/-- C4 counterexample: for a shebang document whose second line is blank,
insertion is at line 2, not line 1 as the claim's shebang case states —
the blank-skipping loop also runs after the shebang. -/
theorem c4_shebang_blank_line :
    startsShebang (lineTextAt "#!a\n\nx".toList 0) = true ∧
    insertionLine "#!a\n\nx".toList = 2 ∧
    insertionLine "#!a\n\nx".toList ≠ 1 := by
  decide

/-- C4 amended: `insertionPosition` starts at line 0, advances to line 1
when line 0 begins with a shebang, then advances past every consecutive
blank line: the result is at most the line count, every line between the
start line and the result is blank, the result is the line count or a
non-blank line, and the returned position is column 0 of that line (its
character offset).  In particular insertion is at line 1 for a shebang
document whose following line is non-blank, and at line 3 for a
non-shebang document with exactly three leading blank lines. -/
theorem c4_amended_insertion (s : List Char) :
    (shebangStart s ≤ insertionLine s ∧
     insertionLine s ≤ lineCount s ∧
     (∀ j, shebangStart s ≤ j → j < insertionLine s →
        trimChars (lineTextAt s j) = []) ∧
     (insertionLine s < lineCount s →
        trimChars (lineTextAt s (insertionLine s)) ≠ []) ∧
     insertionOffset s = lineStartOffset s (insertionLine s)) ∧
    (startsShebang (lineTextAt s 0) = true → shebangStart s = 1) ∧
    (startsShebang (lineTextAt s 0) = false → shebangStart s = 0) ∧
    (startsShebang (lineTextAt s 0) = true →
      trimChars (lineTextAt s 1) ≠ [] → insertionLine s = 1) ∧
    (startsShebang (lineTextAt s 0) = false →
      trimChars (lineTextAt s 0) = [] → trimChars (lineTextAt s 1) = [] →
      trimChars (lineTextAt s 2) = [] →
      trimChars (lineTextAt s 3) ≠ [] → insertionLine s = 3) := by
  have hlen : 0 < (docLines s).length :=
    List.length_pos.mpr (docLines_ne_nil s)
  have hlc : lineCount s = (docLines s).length := rfl
  have hst01 : shebangStart s = 0 ∨ shebangStart s = 1 := by
    rw [shebangStart]
    split
    · right; rfl
    · left; rfl
  have hil : insertionLine s =
      shebangStart s + skipBlankCount ((docLines s).drop (shebangStart s)) :=
    rfl
  have hkle : skipBlankCount ((docLines s).drop (shebangStart s)) ≤
      (docLines s).length - shebangStart s := by
    have := skipBlankCount_le ((docLines s).drop (shebangStart s))
    simpa using this
  have hshebang_true : startsShebang (lineTextAt s 0) = true →
      shebangStart s = 1 := by
    intro h
    rw [shebangStart, if_pos ⟨by rw [hlc]; exact hlen, h⟩]
  have hshebang_false : startsShebang (lineTextAt s 0) = false →
      shebangStart s = 0 := by
    intro h
    rw [shebangStart, if_neg]
    rintro ⟨h1, h2⟩
    rw [h] at h2
    exact Bool.noConfusion h2
  refine ⟨⟨?_, ?_, ?_, ?_, rfl⟩, hshebang_true, hshebang_false, ?_, ?_⟩
  · omega
  · rw [hil, hlc]
    rcases hst01 with h | h <;> rw [h] at hkle ⊢ <;> omega
  · intro j hj1 hj2
    rw [hil] at hj2
    have hb := skipBlankCount_blank ((docLines s).drop (shebangStart s))
      (j - shebangStart s) (by omega)
    rw [getD_drop] at hb
    have he : shebangStart s + (j - shebangStart s) = j := by omega
    rw [he] at hb
    exact hb
  · intro hlt
    rw [hil, hlc] at hlt
    rcases skipBlankCount_stop ((docLines s).drop (shebangStart s)) with
      h | ⟨h1, h2⟩
    · exfalso
      rw [h] at hlt
      simp only [List.length_drop] at hlt
      rcases hst01 with hst | hst <;> rw [hst] at hlt <;> omega
    · rw [getD_drop] at h2
      rw [hil]
      exact h2
  · intro h1 h2
    rw [hil, hshebang_true h1]
    cases hdrop : (docLines s).drop 1 with
    | nil => simp [skipBlankCount]
    | cons e rest =>
      have he : e.1 = lineTextAt s 1 := by
        have hgd := getD_drop (docLines s) 1 0
          (([] : List Char), ([] : List Char))
        rw [hdrop] at hgd
        simp only [List.getD_cons_zero] at hgd
        rw [lineTextAt, ← hgd]
      rw [skipBlankCount, if_neg (by rw [he]; exact h2)]
  · intro h0 hb0 hb1 hb2 hnb3
    rw [hil, hshebang_false h0]
    simp only [List.drop_zero, Nat.zero_add]
    have h3lt : 3 < (docLines s).length := by
      by_contra hc
      have hgd : (docLines s).getD 3 ([], []) = ([], []) :=
        List.getD_eq_default _ _ (by omega)
      rw [lineTextAt, hgd] at hnb3
      simp [trimChars] at hnb3
    have hkub : skipBlankCount (docLines s) ≤ 3 := by
      by_contra hc
      have := skipBlankCount_blank (docLines s) 3 (by omega)
      rw [lineTextAt] at hnb3
      exact hnb3 this
    rcases skipBlankCount_stop (docLines s) with h | ⟨hlt, hnb⟩
    · omega
    · rw [lineTextAt] at hb0 hb1 hb2
      interval_cases hk : skipBlankCount (docLines s)
      · exact absurd hb0 hnb
      · exact absurd hb1 hnb
      · exact absurd hb2 hnb
      · rfl

/-- C4 amended, witness: a shebang document with non-blank second line
inserts at line 1, and a document with three leading blank lines inserts
at line 3. -/
theorem c4_amended_insertion_witness :
    insertionLine "#!/usr/bin/env X\ncode".toList = 1 ∧
    insertionLine "\n\n\ncode\n".toList = 3 :=
  ⟨(c4_amended_insertion "#!/usr/bin/env X\ncode".toList).2.2.2.1
      (by decide) (by decide),
   (c4_amended_insertion "\n\n\ncode\n".toList).2.2.2.2
      (by decide) (by decide) (by decide) (by decide) (by decide)⟩

/-- C5: the existing-header search is anchored: any successful search
matches a prefix of the scanned text starting at offset 0 whose lead-in to
the comment delimiter is whitespace alone (the matched span has
`HeaderShape` form, whose first component is all-whitespace).
Consequently a header line preceded by a non-whitespace character is never
detected: on the shell script whose line 1 is a correct header below a
shebang the search finds nothing, while a header below blank lines is
found with a matched span that includes those blank lines (the blank-lines
document matches with length 15, covering both leading newlines). -/
theorem c5_anchored_whitespace_only :
    (∀ (tokens : CommentTokens) (label : List Char) (s : List Char)
        (mlen : Nat) (cap : List Char),
      execAnchored (headerRE tokens label) s = some (mlen, cap) →
      mlen ≤ s.length ∧
        HeaderShape tokens.startTok label tokens.stopTok (s.take mlen)) ∧
    execAnchored (headerRE (getCommentTokens "shellscript")
        (resolveLabel none))
      (chunkText ⟨"#!/bin/sh\n# Path: a/b.sh\nx\n".toList, .lf⟩) = none ∧
    (execAnchored (headerRE (getCommentTokens "python") (resolveLabel none))
        (chunkText ⟨"\n\n# Path: a.py\nx\n".toList, .lf⟩)).map Prod.fst =
      some 15 := by
  refine ⟨?_, by decide, by decide⟩
  intro tokens label s mlen cap h
  exact exec_some_shape tokens label h

/-- C5 witness: the blank-lines document applied to the anchored-shape
statement — the 15-character matched span decomposes with an
all-whitespace lead-in. -/
theorem c5_anchored_whitespace_only_witness :
    15 ≤ (chunkText ⟨"\n\n# Path: a.py\nx\n".toList, .lf⟩).length ∧
      HeaderShape (getCommentTokens "python").startTok (resolveLabel none)
        (getCommentTokens "python").stopTok
        ((chunkText ⟨"\n\n# Path: a.py\nx\n".toList, .lf⟩).take 15) :=
  c5_anchored_whitespace_only.1 (getCommentTokens "python")
    (resolveLabel none) (chunkText ⟨"\n\n# Path: a.py\nx\n".toList, .lf⟩)
    15 "a.py".toList (by decide)

/-- C6: the comment-style resolver is total over all language ids: a hit
in the line mapping yields that line style, otherwise a hit in the block
mapping yields that block style, otherwise the default double-slash line
style; in particular the unknown id resolves to the default. -/
theorem c6_comment_tokens :
    (∀ id : String,
      (∀ p, lineMap.lookup id = some p → getCommentTokens id = .line p) ∧
      (lineMap.lookup id = none →
        ∀ pq, blockMap.lookup id = some pq →
          getCommentTokens id = .block pq.1 pq.2) ∧
      (lineMap.lookup id = none → blockMap.lookup id = none →
        getCommentTokens id = .line "// ".toList)) ∧
    getCommentTokens "unknown-lang-xyz" = .line "// ".toList := by
  constructor
  · intro id
    refine ⟨fun p hp => ?_, fun h1 pq hpq => ?_, fun h1 h2 => ?_⟩
    · rw [getCommentTokens, hp]
    · rw [getCommentTokens, h1, hpq]
    · rw [getCommentTokens, h1, h2]
  · decide

/-- C6 witness: python resolves through the line mapping to the hash
style. -/
theorem c6_comment_tokens_witness :
    getCommentTokens "python" = .line "# ".toList :=
  (c6_comment_tokens.1 "python").1 "# ".toList (by decide)

/-- C7: both variants' escape functions make every embedded literal match
only itself: for every comment style and every label, the built pattern
parses (no escaped character is reinterpreted as syntax, in either
variant) to the same syntax tree, and that tree accepts a string exactly
when it is optional whitespace, the start delimiter verbatim, the label
verbatim, a colon, optional whitespace, a non-empty terminator-free
captured path, the end delimiter verbatim (empty for a line style), and
an optional trailing line terminator. -/
theorem c7_escaped_pattern_exact (tokens : CommentTokens)
    (label : List Char) :
    parsePattern (headerRegex tokens label) =
      some (expectedRE tokens label) ∧
    parsePattern (headerRegexV2 tokens label) =
      some (expectedRE tokens label) ∧
    ∀ s, RMatch (expectedRE tokens label) s ↔
      HeaderShape tokens.startTok label tokens.stopTok s :=
  ⟨parse_headerRegex tokens label, parse_headerRegexV2 tokens label,
   fun s => rmatch_expected_iff tokens label s⟩

/-- C7 witness: the html-style pattern with the default label accepts the
literal header line for path `a.b` — the periods and hyphens of the
delimiters match only themselves. -/
theorem c7_escaped_pattern_exact_witness :
    RMatch (expectedRE (CommentTokens.block "<!-- ".toList " -->".toList)
        "Path".toList) "<!-- Path: a.b -->\n".toList :=
  ((c7_escaped_pattern_exact
      (CommentTokens.block "<!-- ".toList " -->".toList)
      "Path".toList).2.2 "<!-- Path: a.b -->\n".toList).mpr
    ⟨[], [' '], "a.b".toList, ['\n'], by decide, by decide, by decide,
     by decide, by decide, by decide⟩

/-- C8: the rendered header is the label, colon-space, the path, wrapped
in the style's delimiters (the end delimiter being empty for a line
style), terminated by the document's own line ending — CR LF exactly when
the document uses CRLF and LF otherwise, never a mixture; in particular
the python header for label `Path` and path `src/app.py` on an LF
document is the hash line. -/
theorem c8_header_text :
    (∀ (tokens : CommentTokens) (label rel : List Char) (eol : EOL),
      headerText tokens label rel eol =
        tokens.startTok ++ label ++ [':', ' '] ++ rel ++ tokens.stopTok ++
          (if eol = .crlf then ['\r', '\n'] else ['\n'])) ∧
    headerText (getCommentTokens "python") "Path".toList
        "src/app.py".toList .lf = "# Path: src/app.py\n".toList := by
  constructor
  · intro tokens label rel eol
    cases tokens <;> cases eol <;>
      simp [headerText, CommentTokens.startTok, CommentTokens.stopTok]
  · decide

/-- C9: with no active editor, or a triggering document that is not the
active editor's document, the synchronization entry point returns without
registering any edit — the outcome is the no-op decision (and the model
is a total function, so nothing is raised and no message is shown). -/
theorem c9_no_context_noop (active : Option Nat) (docId : Nat)
    (d : TextDoc) (langId : String) (cfg : Option (List Char))
    (rel : List Char) (h : active ≠ some docId) :
    ensureHeaderRun active docId d langId cfg rel = .noOp := by
  match active with
  | none => rfl
  | some e =>
    rw [ensureHeaderRun]
    rw [if_neg (fun he => h (by rw [he]))]

/-- C9 witness: no active editor, and an active editor showing a
different document, both produce the no-op outcome. -/
theorem c9_no_context_noop_witness :
    ensureHeaderRun none 0 ⟨"x\n".toList, .lf⟩ "python" none
        "a.py".toList = .noOp ∧
    ensureHeaderRun (some 1) 0 ⟨"x\n".toList, .lf⟩ "python" none
        "a.py".toList = .noOp :=
  ⟨c9_no_context_noop none 0 ⟨"x\n".toList, .lf⟩ "python" none
      "a.py".toList (by decide),
   c9_no_context_noop (some 1) 0 ⟨"x\n".toList, .lf⟩ "python" none
      "a.py".toList (by decide)⟩

/-- C10 counterexample: with a workspace folder present and
`includeWorkspaceFolder` at its default of true, the second variant
prefixes the folder name and a slash while the first does not, so the two
implementations compute different target paths — and different edit
decisions on the same document. -/
theorem c10_paths_differ :
    asRelativePathModel (some "myws".toList) "src/app.py".toList
        "/home/u/ws/src/app.py".toList ≠
      getRelPathOrAbs (some "myws".toList) "src/app.py".toList
        "/home/u/ws/src/app.py".toList true ∧
    ensureHeaderDecision ⟨"x\n".toList, .lf⟩ "python" none
        (asRelativePathModel (some "myws".toList) "src/app.py".toList
          "/abs/app.py".toList) ≠
      ensureHeaderDecisionV2 ⟨"x\n".toList, .lf⟩ "python" none
        (some "myws".toList) "src/app.py".toList "/abs/app.py".toList
        true := by
  decide

/-- C10 amended: the two implementations compute the same target path
exactly when the document lies outside any workspace folder or
`includeWorkspaceFolder` is disabled; in that case they also compute the
same edit decision for every document, language and label configuration
(their patterns differ only in escape style and parse identically). -/
theorem c10_amended_agreement (ws : Option (List Char))
    (relRaw fileName : List Char) (includeWsName : Bool) :
    (asRelativePathModel ws relRaw fileName =
        getRelPathOrAbs ws relRaw fileName includeWsName ↔
      (ws = none ∨ includeWsName = false)) ∧
    ((ws = none ∨ includeWsName = false) →
      ∀ (d : TextDoc) (langId : String) (cfg : Option (List Char)),
        ensureHeaderDecision d langId cfg
            (asRelativePathModel ws relRaw fileName) =
          ensureHeaderDecisionV2 d langId cfg ws relRaw fileName
            includeWsName) := by
  have hiff : asRelativePathModel ws relRaw fileName =
      getRelPathOrAbs ws relRaw fileName includeWsName ↔
      (ws = none ∨ includeWsName = false) := by
    match ws with
    | none => simp [asRelativePathModel, getRelPathOrAbs]
    | some name =>
      match includeWsName with
      | false => simp [asRelativePathModel, getRelPathOrAbs]
      | true =>
        simp only [asRelativePathModel, getRelPathOrAbs]
        constructor
        · intro h
          have hl := congrArg List.length h
          simp at hl
          omega
        · rintro (h | h)
          · exact Option.noConfusion h
          · exact Bool.noConfusion h
  refine ⟨hiff, fun h d langId cfg => ?_⟩
  have hpath : getRelPathOrAbs ws relRaw fileName includeWsName =
      asRelativePathModel ws relRaw fileName := (hiff.mpr h).symm
  simp only [ensureHeaderDecision, ensureHeaderDecisionV2, hpath,
    headerRE_eq, headerREV2_eq]

/-- C10 amended, witness: outside any workspace folder both variants use
the absolute file name and agree on the decision. -/
theorem c10_amended_agreement_witness :
    asRelativePathModel none "src/app.py".toList "/abs/app.py".toList =
      getRelPathOrAbs none "src/app.py".toList "/abs/app.py".toList
        true ∧
    ensureHeaderDecision ⟨"x\n".toList, .lf⟩ "python" none
        (asRelativePathModel none "src/app.py".toList
          "/abs/app.py".toList) =
      ensureHeaderDecisionV2 ⟨"x\n".toList, .lf⟩ "python" none none
        "src/app.py".toList "/abs/app.py".toList true :=
  ⟨(c10_amended_agreement none "src/app.py".toList "/abs/app.py".toList
      true).1.mpr (Or.inl rfl),
   (c10_amended_agreement none "src/app.py".toList "/abs/app.py".toList
      true).2 (Or.inl rfl) ⟨"x\n".toList, .lf⟩ "python" none⟩

end RelPath
